import Mathlib

/-!
Verification of the SecureDoc PDF-merger application (src/main.py) against its
natural-language specification.

The program is a PySide6 GUI whose single interesting component is a
`QGridLayout` used directly as the ordered collection of PDF thumbnails: the
layout's item list (in `itemAt` index order) holds the real thumbnail widgets
plus one trailing "add" placeholder widget, and each layout item carries the
grid cell (row, col) it was assigned by the last `addWidget` call for it.

We embed the layout as a list of `Cell` records in item order.  The Qt
semantics used by the code are:

* `addWidget(w, row, col)` on a widget already managed by the layout first
  removes its existing layout item (Qt's `QLayout::addChildWidget` removes the
  widget from its current layout) and then appends a fresh item with the new
  cell, so we model it as remove-then-append;
* `removeWidget(w)` (also triggered by `setParent(None)` through the
  `ChildRemoved` event) deletes the widget's layout item and leaves every other
  item, and its assigned cell, untouched.

PDF rasterization (pdf2image) and the PDF merge engine (PyPDF2 `PdfMerger`)
are external collaborators; the merger's accumulator behaviour
(append / write / close) is modelled abstractly by `MergerState`.
-/

/-- A widget managed by the thumbnail grid: either a PDF thumbnail
(`oid` is the Qt object identity distinguishing distinct widget objects,
`pdf_path` the source path it was created from), or the single trailing
add-placeholder widget. -/
inductive Widget
  | thumb (oid : Nat) (pdf_path : String)
  | placeholder
deriving DecidableEq, Repr

/-- One `QGridLayout` item: the widget plus the grid cell (row, col) assigned
to it by the last `addWidget` call that placed it. -/
structure Cell where
  w : Widget
  row : Nat
  col : Nat
deriving DecidableEq, Repr

/-- The grid layout: its items in `itemAt` index order. -/
abbrev Layout := List Cell

/-- Qt `QLayout.removeWidget w` (and the `ChildRemoved` handling triggered by
`setParent(None)`): delete the layout item(s) holding `w`, all other items are
untouched. -/
def removeWidgetL : Layout → Widget → Layout
  | [], _ => []
  | c :: L, w => if c.w = w then removeWidgetL L w else c :: removeWidgetL L w

/-- Qt `QGridLayout.addWidget w row col`: a widget already in the layout is
first removed from it (`QLayout::addChildWidget`), then a fresh item with the
new cell is appended at the end of the item list. -/
def addWidget (L : Layout) (w : Widget) (row col : Nat) : Layout :=
  removeWidgetL L w ++ [⟨w, row, col⟩]

/-- The list-comprehension used by `swap_widgets` / `update_grid`:
`[itemAt(i).widget() for i in range(count) if widget != placeholder]`,
i.e. the real (non-placeholder) widgets in item order. -/
def realWidgets : Layout → List Widget
  | [] => []
  | c :: L => if c.w = Widget.placeholder then realWidgets L else c.w :: realWidgets L

/-- The cells produced by the re-placement loop
`for index, widget in enumerate(items): addWidget(widget, *divmod(index, 3))`
when it targets an empty layout: widget number `i` of `ws` gets cell
`divmod(k + i, 3)`. -/
def cells_from (k : Nat) : List Widget → Layout
  | [] => []
  | w :: ws => ⟨w, k / 3, k % 3⟩ :: cells_from (k + 1) ws

/-- The re-placement loop of `swap_widgets` / `update_grid` run against an
arbitrary current layout `L`:
`for index, widget in enumerate(ws): L.addWidget(widget, *divmod(k+index, 3))`. -/
def place_from (k : Nat) (L : Layout) : List Widget → Layout
  | [] => L
  | w :: ws => place_from (k + 1) (addWidget L w (k / 3) (k % 3)) ws

/-- `DraggableGridWidget.update_grid`: collect the real widgets in item order,
remove every widget from the layout (leaving it empty), re-add each real
widget at cell `divmod(index, 3)`, then add the placeholder at
`divmod(len(items), 3)`. -/
def update_grid (L : Layout) : Layout :=
  let items := realWidgets L
  addWidget (place_from 0 [] items) Widget.placeholder (items.length / 3) (items.length % 3)

/-- The fully re-flowed layout holding exactly the real widgets `ws` in order
followed by the placeholder: widget `i` at cell `divmod(i, 3)`, placeholder at
cell `divmod(ws.length, 3)`.  This is the shape `update_grid` produces. -/
def normal (ws : List Widget) : Layout :=
  cells_from 0 ws ++ [⟨Widget.placeholder, ws.length / 3, ws.length % 3⟩]

/-- The grid right after `DraggableGridWidget.__init__` / `add_placeholder`:
only the placeholder, added at `divmod(0, 3) = (0, 0)`. -/
def initial_grid : Layout := [⟨Widget.placeholder, 0, 0⟩]

/-- `DraggableGridWidget.add_pdf`: rasterizing the first page is delegated to
the external pdf2image library; `ok` records whether it succeeded.  On failure
the exception is caught, an error is printed and nothing is added.  On success
the new thumbnail widget is added at cell `divmod(count - 1, 3)` (excluding
the placeholder) and the grid is re-flowed by `update_grid`. -/
def add_pdf (L : Layout) (widget : Widget) (ok : Bool) : Layout :=
  if ok then
    update_grid (addWidget L widget ((L.length - 1) / 3) ((L.length - 1) % 3))
  else L

/-- `PDFThumbnailWidget.delete_self`: `setParent(None)` detaches the widget,
which makes the layout drop its item (`ChildRemoved`); `deleteLater` then
destroys the object.  No re-flow of any kind is performed. -/
def delete_self (L : Layout) (widget : Widget) : Layout :=
  removeWidgetL L widget

/-- `DraggableGridWidget.clear_all_pdfs`: walk the items in reverse and remove
(and destroy) every non-placeholder widget; the placeholder's item, with its
current cell, is kept as is.  No re-flow is performed. -/
def clear_all_pdfs : Layout → Layout
  | [] => []
  | c :: L => if c.w = Widget.placeholder then c :: clear_all_pdfs L else clear_all_pdfs L

/-- `DraggableGridWidget.get_pdf_paths`: the source paths of the
non-placeholder widgets in item order. -/
def get_pdf_paths : Layout → List String
  | [] => []
  | c :: L =>
    match c.w with
    | Widget.placeholder => get_pdf_paths L
    | Widget.thumb _ p => p :: get_pdf_paths L

/-- `DraggableGridWidget.get_grid_position`: from a pointer pixel position
`pos = (x, y)` inside the grid widget compute
`(row, col) = (y // cell_height, x // cell_width)` with
`cell_height = 140`, `cell_width = 120`. -/
def get_grid_position (pos : Nat × Nat) : Nat × Nat :=
  (pos.2 / 140, pos.1 / 120)

/-- `DraggableGridWidget.can_place`: the drop is allowed unless the
highlighted cell is the cell `divmod(count - 1, 3)` (the placeholder's cell
whenever the layout is re-flowed).  The code compares the top-left corners of
the two cell rectangles; at the cell level this is inequality of the cells. -/
def can_place (L : Layout) (highlight_cell : Nat × Nat) : Bool :=
  decide (highlight_cell ≠ ((L.length - 1) / 3, (L.length - 1) % 3))

/-- Python `list.index`: the first index holding the value, `none` when the
value is absent (a `ValueError` in Python). -/
def py_index : List Widget → Widget → Option Nat
  | [], _ => none
  | x :: xs, w => if x = w then some 0 else (py_index xs w).map (fun i => i + 1)

/-- Python's tuple swap
`items[i], items[j] = items[j], items[i]`: both right-hand entries are read
first, then written back (so `i = j` is a no-op).  In-range indices are the
caller's obligation; `getD`'s default is never read under them. -/
def swap2 (xs : List Widget) (i j : Nat) : List Widget :=
  (xs.set i (xs.getD j Widget.placeholder)).set j (xs.getD i Widget.placeholder)

/-- `DraggableGridWidget.swap_widgets`: build the list of real widgets in item
order, find the dragged widget's index in it (`list.index`; `ValueError` when
absent is modelled as `none`), swap it with the entry at `target_index`
(Python's tuple swap reads both entries first; `target_index` out of range
raises `IndexError`, modelled as `none`), then re-add every widget of the
swapped list at cell `divmod(index, 3)` into the current layout. -/
def swap_widgets (L : Layout) (source_widget : Widget) (target_index : Nat) : Option Layout :=
  let items := realWidgets L
  (py_index items source_widget).bind (fun source_index =>
    if target_index < items.length then
      some (place_from 0 L (swap2 items source_index target_index))
    else none)

/-- `DraggableGridWidget.dropEvent`: locate the dragged widget (by the pixel
position recorded in the drag payload; `source_widget` here is the widget that
scan found), compute the target cell from the drop position, and when
`can_place` accepts (the code checks it against the cell highlighted by the
last `dragMoveEvent`, which in the drag-then-drop event flow is the cell of
the drop position) swap with the occupant of `target_index = row * 3 + col`
and re-flow with `update_grid`.  When `can_place` rejects, nothing is changed.
An uncaught Python exception inside the handler is modelled as `none`. -/
def dropEvent (L : Layout) (source_widget : Widget) (pos : Nat × Nat) : Option Layout :=
  let rc := get_grid_position pos
  if can_place L rc then
    (swap_widgets L source_widget (rc.1 * 3 + rc.2)).map update_grid
  else
    some L

/-- State of the external PyPDF2 `PdfMerger` accumulator, as the spec
describes it: the sequence of sources appended so far, and whether `close`
has released it. -/
structure MergerState where
  appended : List String
  closed : Bool
deriving DecidableEq, Repr

/-- `PdfMerger()`: a fresh accumulator, empty and not released. -/
def newPdfMerger : MergerState := ⟨[], false⟩

/-- Result of one `PDFMergerLogic.merge_pdfs` call: the accumulator state it
leaves behind, the returned success flag, and the write it performed
(destination together with the accumulated source sequence written there). -/
structure MergeResult where
  merger : MergerState
  success : Bool
  written : Option (String × List String)
deriving DecidableEq, Repr

/-- `PDFMergerLogic.merge_pdfs` on the happy path: append each file of
`pdf_files` in list order onto the accumulator `m`, write the accumulated
sequence to `output_file`, close (release) the accumulator and return
`(True, message)`.  Failures of the external library are not modelled; the
claims settled against this definition only concern the accumulator's
lifecycle and the order of the appends. -/
def logic_merge_pdfs (m : MergerState) (pdf_files : List String) (output_file : String) :
    MergeResult :=
  let appended2 := m.appended ++ pdf_files
  ⟨⟨appended2, true⟩, true, some (output_file, appended2)⟩

/-- The pieces of `PDFMergerApp` state the merge flow reads and writes: the
thumbnail grid, the single `PDFMergerLogic` accumulator created in
`__init__`, and the output-filename text field. -/
structure AppState where
  grid : Layout
  merger : MergerState
  output_filename : String
deriving DecidableEq, Repr

/-- `PDFMergerApp.__init__`: one `PDFMergerLogic()` (hence one `PdfMerger()`)
is constructed for the whole lifetime of the window; the grid holds only the
placeholder; the filename field is empty. -/
def initialApp : AppState := ⟨initial_grid, newPdfMerger, ""⟩

/-- The user-visible effect of one press of the Merge button. -/
inductive MergeEffect
  | warnNoFiles
  | warnNoName
  | infoSuccess (dest : String) (pages : List String)
deriving DecidableEq, Repr

/-- `PDFMergerApp.merge_pdfs`: read the grid's paths and the filename field;
with no files, show the `No PDF files selected.` warning and return; with an
empty filename, show the `Output file name not specified.` warning and
return; otherwise normalize the `.pdf` suffix and invoke the merge engine on
`self.merger` (the accumulator created once in `__init__`). -/
def app_merge_pdfs (st : AppState) : AppState × MergeEffect :=
  let pdf_files := get_pdf_paths st.grid
  if pdf_files = [] then (st, MergeEffect.warnNoFiles)
  else if st.output_filename = "" then (st, MergeEffect.warnNoName)
  else
    let out := if st.output_filename.endsWith ".pdf" then st.output_filename
               else st.output_filename ++ ".pdf"
    let r := logic_merge_pdfs st.merger pdf_files out
    (⟨st.grid, r.merger, st.output_filename⟩, MergeEffect.infoSuccess out r.merger.appended)

/-- Python `f"{k:03d}"`: decimal digits of `k` left-padded with zeros to a
minimum width of 3. -/
def pad3 (k : Nat) : String :=
  if k < 10 then "00" ++ toString k
  else if k < 100 then "0" ++ toString k
  else toString k

/-- The candidate names tried by `generate_output_filename`, in order:
`Merged_Output.pdf`, then `Merged_Output_001.pdf`, `Merged_Output_002.pdf`, … -/
def outName (k : Nat) : String :=
  if k = 0 then "Merged_Output.pdf" else "Merged_Output_" ++ pad3 k ++ ".pdf"

/-- The `while os.path.exists(output_file)` loop of
`PDFMergerApp.generate_output_filename`: `ex` is the file-system existence
test, `output_file` the current candidate, `counter` the next counter value.
The loop need not terminate when every candidate exists, so it is given fuel;
`none` models not returning within `fuel` iterations. -/
def gen_loop (ex : String → Bool) : Nat → String → Nat → Option String
  | 0, _, _ => none
  | fuel + 1, output_file, counter =>
    if ex output_file then
      gen_loop ex fuel ("Merged_Output_" ++ pad3 counter ++ ".pdf") (counter + 1)
    else some output_file

/-- `PDFMergerApp.generate_output_filename`: start from `Merged_Output.pdf`
with `counter = 1` and return the first candidate that does not exist. -/
def generate_output_filename (ex : String → Bool) (fuel : Nat) : Option String :=
  gen_loop ex fuel "Merged_Output.pdf" 1

/-! ## Helper lemmas about the layout embedding -/

/-- Removal of a single widget value from a widget list (the effect of
`removeWidgetL` seen through `realWidgets`). -/
def removeW : List Widget → Widget → List Widget
  | [], _ => []
  | x :: xs, w => if x = w then removeW xs w else x :: removeW xs w

/-- Removal of every widget of `zs` from a widget list. -/
def removeMany : List Widget → List Widget → List Widget
  | [], _ => []
  | x :: xs, zs => if x ∈ zs then removeMany xs zs else x :: removeMany xs zs

theorem realWidgets_append (A B : Layout) :
    realWidgets (A ++ B) = realWidgets A ++ realWidgets B := by
  induction A with
  | nil => rfl
  | cons c A ih =>
    simp only [List.cons_append, realWidgets]
    by_cases h : c.w = Widget.placeholder <;> simp [h, ih]

theorem placeholder_not_mem_realWidgets (L : Layout) :
    Widget.placeholder ∉ realWidgets L := by
  induction L with
  | nil => simp [realWidgets]
  | cons c L ih =>
    simp only [realWidgets]
    by_cases h : c.w = Widget.placeholder
    · simpa [h] using ih
    · rw [if_neg h]
      intro hmem
      rcases List.mem_cons.mp hmem with he | hm
      · exact h he.symm
      · exact ih hm

theorem mem_realWidgets {L : Layout} {w : Widget} (h : w ∈ realWidgets L) :
    ∃ c ∈ L, c.w = w := by
  induction L with
  | nil => simp [realWidgets] at h
  | cons c L ih =>
    simp only [realWidgets] at h
    by_cases hc : c.w = Widget.placeholder
    · rw [if_pos hc] at h
      obtain ⟨c', hc', hw⟩ := ih h
      exact ⟨c', List.mem_cons_of_mem _ hc', hw⟩
    · rw [if_neg hc] at h
      rcases List.mem_cons.mp h with h | h
      · exact ⟨c, List.mem_cons_self _ _, h.symm⟩
      · obtain ⟨c', hc', hw⟩ := ih h
        exact ⟨c', List.mem_cons_of_mem _ hc', hw⟩

theorem realWidgets_cells_from {ws : List Widget} (hnp : Widget.placeholder ∉ ws) :
    ∀ k, realWidgets (cells_from k ws) = ws := by
  induction ws with
  | nil => intro k; rfl
  | cons w ws ih =>
    intro k
    have hw : w ≠ Widget.placeholder := fun h => hnp (h ▸ List.mem_cons_self _ _)
    have hnp' : Widget.placeholder ∉ ws := fun h => hnp (List.mem_cons_of_mem _ h)
    simp only [cells_from, realWidgets, if_neg hw]
    rw [ih hnp']

theorem cells_from_length (ws : List Widget) : ∀ k, (cells_from k ws).length = ws.length := by
  induction ws with
  | nil => intro k; rfl
  | cons w ws ih => intro k; simp [cells_from, ih]

theorem cells_from_mem_w {ws : List Widget} {c : Cell} :
    ∀ {k}, c ∈ cells_from k ws → c.w ∈ ws := by
  induction ws with
  | nil => intro k h; simp [cells_from] at h
  | cons w ws ih =>
    intro k h
    rcases List.mem_cons.mp h with h | h
    · rw [h]
      exact List.mem_cons_self _ _
    · exact List.mem_cons_of_mem _ (ih h)

theorem realWidgets_normal {ws : List Widget} (hnp : Widget.placeholder ∉ ws) :
    realWidgets (normal ws) = ws := by
  rw [normal, realWidgets_append, realWidgets_cells_from hnp]
  simp [realWidgets]

theorem normal_length (ws : List Widget) : (normal ws).length = ws.length + 1 := by
  simp [normal, cells_from_length]

theorem removeWidgetL_append (A B : Layout) (w : Widget) :
    removeWidgetL (A ++ B) w = removeWidgetL A w ++ removeWidgetL B w := by
  induction A with
  | nil => rfl
  | cons c A ih =>
    simp only [List.cons_append, removeWidgetL]
    by_cases h : c.w = w <;> simp [h, ih]

theorem removeWidgetL_of_forall_ne {L : Layout} {w : Widget} (h : ∀ c ∈ L, c.w ≠ w) :
    removeWidgetL L w = L := by
  induction L with
  | nil => rfl
  | cons c L ih =>
    simp only [removeWidgetL, if_neg (h c (List.mem_cons_self _ _))]
    rw [ih (fun c' hc' => h c' (List.mem_cons_of_mem _ hc'))]

theorem realWidgets_removeWidgetL (L : Layout) (w : Widget) :
    realWidgets (removeWidgetL L w) = removeW (realWidgets L) w := by
  induction L with
  | nil => rfl
  | cons c L ih =>
    simp only [removeWidgetL, realWidgets]
    by_cases hw : c.w = w
    · by_cases hp : c.w = Widget.placeholder
      · rw [if_pos hw, if_pos hp, ih]
      · rw [if_pos hw, if_neg hp, removeW, if_pos hw, ih]
    · by_cases hp : c.w = Widget.placeholder
      · simp only [if_neg hw, if_pos hp, realWidgets, if_pos hp, ih]
      · simp only [if_neg hw, if_neg hp, realWidgets, if_neg hp, removeW, if_neg hw, ih]

theorem removeW_of_not_mem {xs : List Widget} {w : Widget} (h : w ∉ xs) :
    removeW xs w = xs := by
  induction xs with
  | nil => rfl
  | cons x xs ih =>
    have hx : x ≠ w := fun he => h (he ▸ List.mem_cons_self _ _)
    simp only [removeW, if_neg hx]
    rw [ih (fun hm => h (List.mem_cons_of_mem _ hm))]

theorem removeMany_nil_right (xs : List Widget) : removeMany xs [] = xs := by
  induction xs with
  | nil => rfl
  | cons x xs ih => simp [removeMany, ih]

theorem removeMany_append_left (A B zs : List Widget) :
    removeMany (A ++ B) zs = removeMany A zs ++ removeMany B zs := by
  induction A with
  | nil => rfl
  | cons x A ih =>
    simp only [List.cons_append, removeMany]
    by_cases h : x ∈ zs <;> simp [h, ih]

theorem removeMany_removeW (xs : List Widget) (z : Widget) (zs : List Widget) :
    removeMany (removeW xs z) zs = removeMany xs (z :: zs) := by
  induction xs with
  | nil => rfl
  | cons x xs ih =>
    by_cases hz : x = z
    · simp only [removeW, if_pos hz, removeMany, ih]
      rw [if_pos (by simp [hz])]
    · simp only [removeW, if_neg hz, removeMany]
      by_cases hm : x ∈ zs
      · rw [if_pos hm, if_pos (by simp [hm]), ih]
      · rw [if_neg hm, if_neg (by simp [hz, hm]), ih]

theorem removeMany_eq_nil {xs zs : List Widget} (h : ∀ x ∈ xs, x ∈ zs) :
    removeMany xs zs = [] := by
  induction xs with
  | nil => rfl
  | cons x xs ih =>
    simp only [removeMany, if_pos (h x (List.mem_cons_self _ _))]
    exact ih (fun x' hx' => h x' (List.mem_cons_of_mem _ hx'))

theorem realWidgets_addWidget (L : Layout) {w : Widget} (hw : w ≠ Widget.placeholder)
    (row col : Nat) :
    realWidgets (addWidget L w row col) = removeW (realWidgets L) w ++ [w] := by
  rw [addWidget, realWidgets_append, realWidgets_removeWidgetL]
  simp [realWidgets, hw]

theorem place_from_fresh {zs : List Widget} :
    ∀ (k : Nat) (L : Layout), (∀ z ∈ zs, ∀ c ∈ L, c.w ≠ z) → zs.Nodup →
      place_from k L zs = L ++ cells_from k zs := by
  induction zs with
  | nil => intro k L _ _; simp [place_from, cells_from]
  | cons z zs ih =>
    intro k L hfresh hnd
    have hz : ∀ c ∈ L, c.w ≠ z := hfresh z (List.mem_cons_self _ _)
    have haw : addWidget L z (k / 3) (k % 3) = L ++ [⟨z, k / 3, k % 3⟩] := by
      rw [addWidget, removeWidgetL_of_forall_ne hz]
    have hfresh2 : ∀ z' ∈ zs, ∀ c ∈ L ++ [⟨z, k / 3, k % 3⟩], c.w ≠ z' := by
      intro z' hz' c hc
      rcases List.mem_append.mp hc with hc | hc
      · exact hfresh z' (List.mem_cons_of_mem _ hz') c hc
      · rcases List.mem_singleton.mp hc with rfl
        intro he
        rw [← he] at hz'
        exact (List.nodup_cons.mp hnd).1 hz'
    rw [place_from, haw, ih (k + 1) _ hfresh2 (List.nodup_cons.mp hnd).2,
      List.append_assoc]
    rfl

theorem realWidgets_place_from {zs : List Widget} :
    ∀ (k : Nat) (L : Layout), zs.Nodup → Widget.placeholder ∉ zs →
      realWidgets (place_from k L zs) = removeMany (realWidgets L) zs ++ zs := by
  induction zs with
  | nil => intro k L _ _; simp [place_from, removeMany_nil_right]
  | cons z zs ih =>
    intro k L hnd hnp
    have hzp : z ≠ Widget.placeholder := fun h => hnp (h ▸ List.mem_cons_self _ _)
    have hnp' : Widget.placeholder ∉ zs := fun h => hnp (List.mem_cons_of_mem _ h)
    have hzz : z ∉ zs := (List.nodup_cons.mp hnd).1
    rw [place_from, ih (k + 1) _ (List.nodup_cons.mp hnd).2 hnp',
      realWidgets_addWidget _ hzp, removeMany_append_left, removeMany_removeW]
    have h1 : removeMany [z] zs = [z] := by
      simp [removeMany, hzz]
    rw [h1, List.append_assoc]
    rfl

theorem update_grid_eq_normal {L : Layout} (hnd : (realWidgets L).Nodup) :
    update_grid L = normal (realWidgets L) := by
  have hnp : Widget.placeholder ∉ realWidgets L := placeholder_not_mem_realWidgets L
  have h1 : place_from 0 [] (realWidgets L) = cells_from 0 (realWidgets L) := by
    rw [place_from_fresh 0 [] (by intro z _ c hc; simp at hc) hnd, List.nil_append]
  rw [update_grid, h1, addWidget,
    removeWidgetL_of_forall_ne
      (by intro c hc he; exact hnp (he ▸ cells_from_mem_w hc)), normal]

/-! ## Indexing lemmas -/

theorem get_append_left {A B : Layout} {k : Nat} (h1 : k < (A ++ B).length)
    (h2 : k < A.length) : (A ++ B).get ⟨k, h1⟩ = A.get ⟨k, h2⟩ := by
  induction A generalizing k with
  | nil => simp at h2
  | cons c A ih =>
    cases k with
    | zero => rfl
    | succ k => exact ih (by simpa using Nat.lt_of_succ_lt_succ h1) (Nat.lt_of_succ_lt_succ h2)

theorem get_append_last {A : Layout} {c : Cell} (h : A.length < (A ++ [c]).length) :
    (A ++ [c]).get ⟨A.length, h⟩ = c := by
  induction A with
  | nil => rfl
  | cons a A ih => exact ih (by simp)

theorem get_append_last2 {A : Layout} {c : Cell} {k : Nat} (hk : k = A.length)
    (h : k < (A ++ [c]).length) : (A ++ [c]).get ⟨k, h⟩ = c := by
  subst hk
  exact get_append_last h

theorem cells_from_get {ws : List Widget} :
    ∀ (k0 k : Nat) (h1 : k < (cells_from k0 ws).length) (h2 : k < ws.length),
      (cells_from k0 ws).get ⟨k, h1⟩ = ⟨ws.get ⟨k, h2⟩, (k0 + k) / 3, (k0 + k) % 3⟩ := by
  induction ws with
  | nil => intro k0 k h1 h2; simp at h2
  | cons w ws ih =>
    intro k0 k h1 h2
    cases k with
    | zero => simp [cells_from]
    | succ k =>
      have := ih (k0 + 1) k (by simpa [cells_from] using Nat.lt_of_succ_lt_succ h1)
        (Nat.lt_of_succ_lt_succ h2)
      simp only [cells_from, List.get_cons_succ, this]
      congr 1 <;> omega

theorem py_index_get {xs : List Widget} (hnd : xs.Nodup) :
    ∀ (i : Nat) (h : i < xs.length), py_index xs (xs.get ⟨i, h⟩) = some i := by
  induction xs with
  | nil => intro i h; simp at h
  | cons x xs ih =>
    intro i h
    cases i with
    | zero => simp [py_index]
    | succ i =>
      have hi : i < xs.length := Nat.lt_of_succ_lt_succ h
      have hmem : xs.get ⟨i, hi⟩ ∈ xs := List.get_mem _ _ _
      have hx : x ≠ xs.get ⟨i, hi⟩ := fun he => (List.nodup_cons.mp hnd).1 (he ▸ hmem)
      simp only [py_index, List.get_cons_succ, if_neg hx]
      rw [ih (List.nodup_cons.mp hnd).2 i hi]
      rfl

theorem py_index_eq_some {xs : List Widget} {w : Widget} :
    ∀ {i : Nat}, py_index xs w = some i → ∃ h : i < xs.length, xs.get ⟨i, h⟩ = w := by
  induction xs with
  | nil => intro i h; simp [py_index] at h
  | cons x xs ih =>
    intro i h
    by_cases hx : x = w
    · rw [py_index, if_pos hx] at h
      cases h
      exact ⟨Nat.succ_pos _, hx⟩
    · rw [py_index, if_neg hx] at h
      cases hi : py_index xs w with
      | none => rw [hi] at h; simp at h
      | some j =>
        rw [hi] at h
        have h2 : some (j + 1) = some i := h
        injection h2 with h3
        obtain ⟨hj, hw⟩ := ih hi
        cases h3
        exact ⟨Nat.succ_lt_succ hj, hw⟩

/-! ## The Python tuple swap -/

theorem swap2_length (xs : List Widget) (i j : Nat) :
    (swap2 xs i j).length = xs.length := by
  simp [swap2]

theorem get_set_self (a : Widget) :
    ∀ (xs : List Widget) (i : Nat) (h : i < (xs.set i a).length),
      (xs.set i a).get ⟨i, h⟩ = a := by
  intro xs
  induction xs with
  | nil => intro i h; simp at h
  | cons x xs ih =>
    intro i h
    cases i with
    | zero => rfl
    | succ i => exact ih i (by simpa using h)

theorem get_set_other (a : Widget) :
    ∀ (xs : List Widget) (i k : Nat) (h1 : k < (xs.set i a).length)
      (h2 : k < xs.length), k ≠ i → (xs.set i a).get ⟨k, h1⟩ = xs.get ⟨k, h2⟩ := by
  intro xs
  induction xs with
  | nil => intro i k h1 h2; simp at h2
  | cons x xs ih =>
    intro i k h1 h2 hne
    cases i with
    | zero =>
      cases k with
      | zero => exact absurd rfl hne
      | succ k => rfl
    | succ i =>
      cases k with
      | zero => rfl
      | succ k =>
        exact ih i k (by simpa using h1) (Nat.lt_of_succ_lt_succ h2)
          (fun he => hne (by rw [he]))

theorem getD_get_W {xs : List Widget} {i : Nat} (h : i < xs.length) (d : Widget) :
    xs.getD i d = xs.get ⟨i, h⟩ := by
  rw [List.getD_eq_getElem xs d h]
  rfl

theorem swap2_get_target {xs : List Widget} {i j : Nat} (hi : i < xs.length)
    (_hj : j < xs.length) (h : j < (swap2 xs i j).length) :
    (swap2 xs i j).get ⟨j, h⟩ = xs.get ⟨i, hi⟩ := by
  simp only [swap2]
  rw [get_set_self, getD_get_W hi]

theorem swap2_get_source {xs : List Widget} {i j : Nat} (hi : i < xs.length)
    (hj : j < xs.length) (h : i < (swap2 xs i j).length) :
    (swap2 xs i j).get ⟨i, h⟩ = xs.get ⟨j, hj⟩ := by
  by_cases hij : i = j
  · subst hij
    simp only [swap2]
    rw [get_set_self, getD_get_W hi]
  · simp only [swap2]
    rw [get_set_other _ _ _ _ _ (by simpa using hi) hij, get_set_self,
      getD_get_W hj]

theorem swap2_get_other {xs : List Widget} {i j : Nat} (k : Nat)
    (hk : k < xs.length) (h : k < (swap2 xs i j).length) (hki : k ≠ i) (hkj : k ≠ j) :
    (swap2 xs i j).get ⟨k, h⟩ = xs.get ⟨k, hk⟩ := by
  simp only [swap2]
  rw [get_set_other _ _ _ _ _ (by simpa using hk) hkj,
    get_set_other _ _ _ _ _ hk hki]

theorem swap2_get_tau {xs : List Widget} {i j : Nat} (hi : i < xs.length)
    (hj : j < xs.length) (k : Nat) (hk : k < (swap2 xs i j).length) :
    (swap2 xs i j).get ⟨k, hk⟩ =
      xs.get ⟨if k = j then i else if k = i then j else k, by
        have := hk
        rw [swap2_length] at this
        split_ifs <;> omega⟩ := by
  by_cases h1 : k = j
  · subst h1
    simp only [if_pos rfl]
    exact swap2_get_target hi hj hk
  · by_cases h2 : k = i
    · subst h2
      simp only [if_neg h1, if_pos rfl]
      exact swap2_get_source hi hj hk
    · simp only [if_neg h1, if_neg h2]
      exact swap2_get_other k (by rw [← swap2_length xs i j]; exact hk) hk h2 h1

theorem swap2_mem {xs : List Widget} {i j : Nat} (hi : i < xs.length)
    (hj : j < xs.length) {x : Widget} (hx : x ∈ xs) : x ∈ swap2 xs i j := by
  obtain ⟨⟨k, hk⟩, rfl⟩ := List.mem_iff_get.mp hx
  have key : ∀ (m : Nat) (hm : m < (swap2 xs i j).length),
      (if m = j then i else if m = i then j else m) = k →
      xs.get ⟨k, hk⟩ ∈ swap2 xs i j := by
    intro m hm htau
    have final : (swap2 xs i j).get ⟨m, hm⟩ = xs.get ⟨k, hk⟩ := by
      rw [swap2_get_tau hi hj m hm]
      congr 1
      exact Fin.ext htau
    rw [← final]
    exact List.get_mem _ _ _
  by_cases h1 : k = i
  · exact key j (by rw [swap2_length]; omega) (by split_ifs <;> omega)
  · by_cases h2 : k = j
    · exact key i (by rw [swap2_length]; omega) (by split_ifs <;> omega)
    · exact key k (by rw [swap2_length]; omega) (by rw [if_neg h2, if_neg h1])

theorem mem_of_swap2_mem {xs : List Widget} {i j : Nat} (hi : i < xs.length)
    (hj : j < xs.length) {x : Widget} (hx : x ∈ swap2 xs i j) : x ∈ xs := by
  obtain ⟨⟨k, hk⟩, rfl⟩ := List.mem_iff_get.mp hx
  rw [swap2_get_tau hi hj k hk]
  exact List.get_mem _ _ _

theorem swap2_nodup {xs : List Widget} (hnd : xs.Nodup) {i j : Nat}
    (hi : i < xs.length) (hj : j < xs.length) : (swap2 xs i j).Nodup := by
  rw [List.nodup_iff_injective_get] at hnd ⊢
  rintro ⟨k, hk⟩ ⟨k2, hk2⟩ heq
  rw [swap2_get_tau hi hj k hk, swap2_get_tau hi hj k2 hk2] at heq
  have hv := congrArg Fin.val (hnd heq)
  simp only at hv
  apply Fin.ext
  simp only
  split_ifs at hv <;> omega

/-! ## The accepted-drop computation -/

theorem swap_widgets_normal {ws : List Widget} (hnp : Widget.placeholder ∉ ws)
    (hnd : ws.Nodup) {src : Widget} {si tgt : Nat}
    (hfind : py_index ws src = some si) (htgt : tgt < ws.length) :
    swap_widgets (normal ws) src tgt = some (place_from 0 (normal ws) (swap2 ws si tgt)) ∧
    update_grid (place_from 0 (normal ws) (swap2 ws si tgt)) = normal (swap2 ws si tgt) := by
  obtain ⟨hsi, -⟩ := py_index_eq_some hfind
  have hnd2 : (swap2 ws si tgt).Nodup := swap2_nodup hnd hsi htgt
  have hnp2 : Widget.placeholder ∉ swap2 ws si tgt :=
    fun hm => hnp (mem_of_swap2_mem hsi htgt hm)
  have hreal : realWidgets (place_from 0 (normal ws) (swap2 ws si tgt)) = swap2 ws si tgt := by
    rw [realWidgets_place_from 0 _ hnd2 hnp2, realWidgets_normal hnp,
      removeMany_eq_nil (fun x hx => swap2_mem hsi htgt hx), List.nil_append]
  constructor
  · simp only [swap_widgets]
    rw [realWidgets_normal hnp, hfind, Option.some_bind, if_pos htgt]
  · rw [update_grid_eq_normal (by rw [hreal]; exact hnd2), hreal]

/-! ## The re-flow invariant -/

/-- The re-flow invariant the specification states for the grid: the layout
holds the real items plus exactly one trailing placeholder, item number `k`
sits at grid cell `divmod(k, 3)` (so the real items occupy the contiguous
slots from 0 and the placeholder occupies the slot equal to the real-item
count). -/
def grid_inv (L : Layout) : Prop :=
  L.length = (realWidgets L).length + 1 ∧
  ∀ (k : Nat) (h : k < L.length),
    (L.get ⟨k, h⟩).row = k / 3 ∧ (L.get ⟨k, h⟩).col = k % 3 ∧
    ((L.get ⟨k, h⟩).w = Widget.placeholder ↔ k + 1 = L.length)

theorem grid_inv_normal {ws : List Widget} (hnp : Widget.placeholder ∉ ws) :
    grid_inv (normal ws) := by
  have hlen : (normal ws).length = ws.length + 1 := normal_length ws
  constructor
  · rw [hlen, realWidgets_normal hnp]
  · intro k h
    by_cases hk : k < ws.length
    · have hcells : k < (cells_from 0 ws).length := by rw [cells_from_length]; exact hk
      have hget : (normal ws).get ⟨k, h⟩ = ⟨ws.get ⟨k, hk⟩, (0 + k) / 3, (0 + k) % 3⟩ :=
        (get_append_left h hcells).trans (cells_from_get 0 k hcells hk)
      rw [hget]
      refine ⟨by simp, by simp, ?_⟩
      constructor
      · intro hw
        exact absurd (hw ▸ List.get_mem ws k hk) hnp
      · intro hcount
        rw [hlen] at hcount
        omega
    · have hk2 : k = ws.length := by rw [hlen] at h; omega
      subst hk2
      have hget : (normal ws).get ⟨ws.length, h⟩ =
          ⟨Widget.placeholder, ws.length / 3, ws.length % 3⟩ :=
        get_append_last2 (cells_from_length ws 0).symm h
      rw [hget, hlen]
      exact ⟨rfl, rfl, by simp⟩

theorem swap_widgets_eq_some {L : Layout} {src : Widget} {t : Nat} {L3 : Layout}
    (h : swap_widgets L src t = some L3) :
    ∃ si, py_index (realWidgets L) src = some si ∧ t < (realWidgets L).length ∧
      L3 = place_from 0 L (swap2 (realWidgets L) si t) := by
  simp only [swap_widgets, Option.bind_eq_some] at h
  obtain ⟨si, hfind, hif⟩ := h
  by_cases ht : t < (realWidgets L).length
  · rw [if_pos ht] at hif
    exact ⟨si, hfind, ht, (Option.some.injEq _ _ ▸ hif).symm⟩
  · rw [if_neg ht] at hif
    exact absurd hif (by simp)

/-! ## Adding thumbnails -/

theorem nodup_append_singleton {xs : List Widget} {w : Widget} (hnd : xs.Nodup)
    (hw : w ∉ xs) : (xs ++ [w]).Nodup := by
  induction xs with
  | nil => simp
  | cons x xs ih =>
    rw [List.cons_append, List.nodup_cons]
    obtain ⟨hx, hxs⟩ := List.nodup_cons.mp hnd
    refine ⟨?_, ih hxs (fun hm => hw (List.mem_cons_of_mem _ hm))⟩
    intro hmem
    rcases List.mem_append.mp hmem with hm | hm
    · exact hx hm
    · have : w ∈ x :: xs := by
        rw [← List.mem_singleton.mp hm]
        exact List.mem_cons_self _ _
      exact hw this

theorem add_pdf_normal {ws : List Widget} (hnp : Widget.placeholder ∉ ws)
    (hnd : ws.Nodup) {w : Widget} (hw : w ≠ Widget.placeholder) (hmem : w ∉ ws) :
    add_pdf (normal ws) w true = normal (ws ++ [w]) := by
  show update_grid (addWidget (normal ws) w (((normal ws).length - 1) / 3)
    (((normal ws).length - 1) % 3)) = _
  have h1 : realWidgets (addWidget (normal ws) w (((normal ws).length - 1) / 3)
      (((normal ws).length - 1) % 3)) = ws ++ [w] := by
    rw [realWidgets_addWidget _ hw, realWidgets_normal hnp, removeW_of_not_mem hmem]
  rw [update_grid_eq_normal (by rw [h1]; exact nodup_append_singleton hnd hmem), h1]

/-- The thumbnail widgets created by a run of `add_pdf` calls for the paths
`ps`, with fresh object identities counting up from `k`. -/
def thumbs_from (k : Nat) : List String → List Widget
  | [] => []
  | p :: ps => Widget.thumb k p :: thumbs_from (k + 1) ps

/-- A run of `add_pdf` calls, one per path in order, each rasterization
succeeding, each thumbnail widget a fresh object. -/
def add_all (L : Layout) (k : Nat) : List String → Layout
  | [] => L
  | p :: ps => add_all (add_pdf L (Widget.thumb k p) true) (k + 1) ps

/-- The paths of the thumbnail widgets of a widget list, in order. -/
def pathsOfW : List Widget → List String
  | [] => []
  | Widget.placeholder :: ws => pathsOfW ws
  | Widget.thumb _ p :: ws => p :: pathsOfW ws

theorem get_pdf_paths_append (A B : Layout) :
    get_pdf_paths (A ++ B) = get_pdf_paths A ++ get_pdf_paths B := by
  induction A with
  | nil => rfl
  | cons c A ih =>
    cases hc : c.w with
    | placeholder => simp only [List.cons_append, get_pdf_paths, hc, List.append_eq, ih]
    | thumb oid p => simp only [List.cons_append, get_pdf_paths, hc, List.append_eq, ih]

theorem get_pdf_paths_cells_from (ws : List Widget) :
    ∀ k, get_pdf_paths (cells_from k ws) = pathsOfW ws := by
  induction ws with
  | nil => intro k; rfl
  | cons w ws ih =>
    intro k
    cases w with
    | placeholder => simp only [cells_from, get_pdf_paths, pathsOfW, ih]
    | thumb oid p => simp only [cells_from, get_pdf_paths, pathsOfW, ih]

theorem get_pdf_paths_normal (ws : List Widget) :
    get_pdf_paths (normal ws) = pathsOfW ws := by
  rw [normal, get_pdf_paths_append, get_pdf_paths_cells_from]
  simp [get_pdf_paths]

theorem pathsOfW_thumbs_from (ps : List String) :
    ∀ k, pathsOfW (thumbs_from k ps) = ps := by
  induction ps with
  | nil => intro k; rfl
  | cons p ps ih => intro k; simp only [thumbs_from, pathsOfW, ih]

theorem add_all_normal (ps : List String) :
    ∀ (ws : List Widget) (k : Nat), Widget.placeholder ∉ ws → ws.Nodup →
      (∀ i p, Widget.thumb i p ∈ ws → i < k) →
      add_all (normal ws) k ps = normal (ws ++ thumbs_from k ps) := by
  induction ps with
  | nil => intro ws k _ _ _; simp [add_all, thumbs_from]
  | cons p ps ih =>
    intro ws k hnp hnd hbound
    have hw : Widget.thumb k p ∉ ws := fun hm => Nat.lt_irrefl k (hbound k p hm)
    have hstep : add_pdf (normal ws) (Widget.thumb k p) true =
        normal (ws ++ [Widget.thumb k p]) :=
      add_pdf_normal hnp hnd (by intro he; exact Widget.noConfusion he) hw
    have hnp2 : Widget.placeholder ∉ ws ++ [Widget.thumb k p] := by
      intro hm
      rcases List.mem_append.mp hm with hm | hm
      · exact hnp hm
      · exact Widget.noConfusion (List.mem_singleton.mp hm)
    have hnd2 : (ws ++ [Widget.thumb k p]).Nodup := nodup_append_singleton hnd hw
    have hbound2 : ∀ i q, Widget.thumb i q ∈ ws ++ [Widget.thumb k p] → i < k + 1 := by
      intro i q hm
      rcases List.mem_append.mp hm with hm | hm
      · exact Nat.lt_succ_of_lt (hbound i q hm)
      · have := List.mem_singleton.mp hm
        have hik : i = k := by injection this
        omega
    rw [add_all, hstep, ih _ (k + 1) hnp2 hnd2 hbound2, List.append_assoc]
    rfl

/-! ## Removing and clearing -/

theorem removeW_get_eraseIdx {ws : List Widget} (hnd : ws.Nodup) :
    ∀ (i : Nat) (h : i < ws.length),
      removeW ws (ws.get ⟨i, h⟩) = ws.eraseIdx i := by
  induction ws with
  | nil => intro i h; simp at h
  | cons x ws ih =>
    intro i h
    obtain ⟨hx, hws⟩ := List.nodup_cons.mp hnd
    cases i with
    | zero =>
      have hget : (x :: ws).get ⟨0, h⟩ = x := rfl
      rw [hget]
      simp only [removeW, if_pos rfl, List.eraseIdx]
      exact removeW_of_not_mem hx
    | succ i =>
      have hi : i < ws.length := Nat.lt_of_succ_lt_succ h
      have hget : (x :: ws).get ⟨i + 1, h⟩ = ws.get ⟨i, hi⟩ := rfl
      have hne : x ≠ ws.get ⟨i, hi⟩ := fun he => hx (he ▸ List.get_mem _ _ _)
      rw [hget]
      simp only [removeW, if_neg hne, List.eraseIdx]
      rw [ih hws i hi]

theorem removeWidgetL_cells_from_eraseIdx {ws : List Widget} (hnd : ws.Nodup) :
    ∀ (k i : Nat) (h : i < ws.length),
      removeWidgetL (cells_from k ws) (ws.get ⟨i, h⟩) = (cells_from k ws).eraseIdx i := by
  induction ws with
  | nil => intro k i h; simp at h
  | cons x ws ih =>
    intro k i h
    obtain ⟨hx, hws⟩ := List.nodup_cons.mp hnd
    cases i with
    | zero =>
      have hget : (x :: ws).get ⟨0, h⟩ = x := rfl
      rw [hget]
      simp only [cells_from, removeWidgetL, if_pos rfl, List.eraseIdx]
      exact removeWidgetL_of_forall_ne
        (fun c hc he => hx (he ▸ cells_from_mem_w hc))
    | succ i =>
      have hi : i < ws.length := Nat.lt_of_succ_lt_succ h
      have hget : (x :: ws).get ⟨i + 1, h⟩ = ws.get ⟨i, hi⟩ := rfl
      have hne : x ≠ ws.get ⟨i, hi⟩ := fun he => hx (he ▸ List.get_mem _ _ _)
      rw [hget]
      simp only [cells_from, removeWidgetL, if_neg hne, List.eraseIdx]
      rw [ih hws (k + 1) i hi]

theorem delete_self_normal {ws : List Widget} (hnp : Widget.placeholder ∉ ws)
    (hnd : ws.Nodup) (i : Nat) (h : i < ws.length) :
    delete_self (normal ws) (ws.get ⟨i, h⟩) =
      (cells_from 0 ws).eraseIdx i ++
        [⟨Widget.placeholder, ws.length / 3, ws.length % 3⟩] := by
  have hwp : Widget.placeholder ≠ ws.get ⟨i, h⟩ :=
    fun he => hnp (he ▸ List.get_mem _ _ _)
  rw [delete_self, normal, removeWidgetL_append,
    removeWidgetL_cells_from_eraseIdx hnd 0 i h]
  congr 1
  simp only [removeWidgetL, if_neg hwp]

theorem clear_all_append (A B : Layout) :
    clear_all_pdfs (A ++ B) = clear_all_pdfs A ++ clear_all_pdfs B := by
  induction A with
  | nil => rfl
  | cons c A ih =>
    simp only [List.cons_append, clear_all_pdfs]
    by_cases h : c.w = Widget.placeholder <;> simp [h, ih]

theorem clear_all_cells_from {ws : List Widget} (hnp : Widget.placeholder ∉ ws) :
    ∀ k, clear_all_pdfs (cells_from k ws) = [] := by
  induction ws with
  | nil => intro k; rfl
  | cons w ws ih =>
    intro k
    have hw : w ≠ Widget.placeholder := fun h => hnp (h ▸ List.mem_cons_self _ _)
    simp only [cells_from, clear_all_pdfs, if_neg hw]
    exact ih (fun h => hnp (List.mem_cons_of_mem _ h)) (k + 1)

theorem clear_all_normal {ws : List Widget} (hnp : Widget.placeholder ∉ ws) :
    clear_all_pdfs (normal ws) =
      [⟨Widget.placeholder, ws.length / 3, ws.length % 3⟩] := by
  rw [normal, clear_all_append, clear_all_cells_from hnp, List.nil_append]
  rfl

/-! ## The auto-naming loop -/

theorem gen_loop_first_free (ex : String → Bool) :
    ∀ (fuel c : Nat) (s : String), gen_loop ex fuel (outName c) (c + 1) = some s →
      ∃ m, c ≤ m ∧ s = outName m ∧ ex (outName m) = false ∧
        ∀ t, c ≤ t → t < m → ex (outName t) = true := by
  intro fuel
  induction fuel with
  | zero => intro c s h; exact absurd h (by simp [gen_loop])
  | succ fuel ih =>
    intro c s h
    rw [gen_loop] at h
    by_cases hex : ex (outName c)
    · rw [if_pos hex] at h
      have hname : "Merged_Output_" ++ pad3 (c + 1) ++ ".pdf" = outName (c + 1) := rfl
      rw [hname] at h
      obtain ⟨m, hcm, hs, hfree, hall⟩ := ih (c + 1) s h
      refine ⟨m, by omega, hs, hfree, ?_⟩
      intro t hct htm
      by_cases hteq : t = c
      · rw [hteq]
        exact hex
      · exact hall t (by omega) htm
    · rw [if_neg hex] at h
      refine ⟨c, Nat.le_refl c, (Option.some.injEq _ _ ▸ h).symm, by simpa using hex, ?_⟩
      intro t hct htm
      omega

/-! ## Claim theorems -/

/-- C1: for every re-flowed grid with real items at linear indices
`0 .. ws.length - 1` and every drop of the item at index `i` onto the cell of
index `j` (`j` a real item's cell, hence not the placeholder's), the drop is
accepted and the resulting layout is the re-flowed grid of the swapped
sequence: the items at `i` and `j` are exchanged, every other item keeps its
linear index, and the placeholder is again the trailing item at slot
`ws.length`. -/
theorem C1_drop_swaps_exactly (ws : List Widget) (i j : Nat) (pos : Nat × Nat)
    (hnp : Widget.placeholder ∉ ws) (hnd : ws.Nodup)
    (hi : i < ws.length) (hj : j < ws.length)
    (hpos : get_grid_position pos = (j / 3, j % 3)) :
    dropEvent (normal ws) (ws.get ⟨i, hi⟩) pos = some (normal (swap2 ws i j)) ∧
    (swap2 ws i j).get ⟨j, by rw [swap2_length]; exact hj⟩ = ws.get ⟨i, hi⟩ ∧
    (swap2 ws i j).get ⟨i, by rw [swap2_length]; exact hi⟩ = ws.get ⟨j, hj⟩ ∧
    ∀ (k : Nat) (hk : k < ws.length), k ≠ i → k ≠ j →
      (swap2 ws i j).get ⟨k, by rw [swap2_length]; exact hk⟩ = ws.get ⟨k, hk⟩ := by
  have hfind := py_index_get hnd i hi
  have hcp : can_place (normal ws) (get_grid_position pos) = true := by
    rw [hpos, can_place]
    apply decide_eq_true
    intro he
    have h1 : j / 3 = ((normal ws).length - 1) / 3 := by
      have := congrArg Prod.fst he
      simpa using this
    have h2 : j % 3 = ((normal ws).length - 1) % 3 := by
      have := congrArg Prod.snd he
      simpa using this
    rw [normal_length] at h1 h2
    simp only [Nat.add_sub_cancel] at h1 h2
    omega
  have hti : (get_grid_position pos).1 * 3 + (get_grid_position pos).2 = j := by
    rw [hpos]
    simp only []
    omega
  obtain ⟨hsw, hug⟩ := swap_widgets_normal hnp hnd hfind hj
  refine ⟨?_, swap2_get_target hi hj _, swap2_get_source hi hj _, ?_⟩
  · simp only [dropEvent]
    rw [if_pos hcp, hti, hsw]
    exact congrArg some hug
  · intro k hk hki hkj
    exact swap2_get_other k hk _ hki hkj

theorem C1_drop_swaps_exactly_witness :
    Widget.placeholder ∉ [Widget.thumb 0 "a.pdf", Widget.thumb 1 "b.pdf"] ∧
    [Widget.thumb 0 "a.pdf", Widget.thumb 1 "b.pdf"].Nodup ∧
    dropEvent (normal [Widget.thumb 0 "a.pdf", Widget.thumb 1 "b.pdf"])
        (Widget.thumb 0 "a.pdf") (120, 0) =
      some (normal [Widget.thumb 1 "b.pdf", Widget.thumb 0 "a.pdf"]) :=
  ⟨by decide, by decide,
    (C1_drop_swaps_exactly [Widget.thumb 0 "a.pdf", Widget.thumb 1 "b.pdf"] 0 1 (120, 0)
      (by decide) (by decide) (by decide) (by decide) (by decide)).1⟩

/-- C6: a drop whose target cell is the placeholder's own cell
(`divmod(ws.length, 3)` in a re-flowed grid of `ws.length` real items) is
rejected by `can_place` before `swap_widgets` is reached, and the layout —
hence the item sequence — is returned unchanged. -/
theorem C6_drop_on_placeholder_rejected (ws : List Widget) (src : Widget)
    (pos : Nat × Nat)
    (hpos : get_grid_position pos = (ws.length / 3, ws.length % 3)) :
    dropEvent (normal ws) src pos = some (normal ws) := by
  have hcp : ¬ (can_place (normal ws) (get_grid_position pos) = true) := by
    rw [hpos, can_place, normal_length]
    simp
  simp only [dropEvent]
  rw [if_neg hcp]

theorem C6_drop_on_placeholder_rejected_witness :
    get_grid_position (120, 0) =
      (([Widget.thumb 0 "a.pdf"] : List Widget).length / 3,
        ([Widget.thumb 0 "a.pdf"] : List Widget).length % 3) ∧
    dropEvent (normal [Widget.thumb 0 "a.pdf"]) (Widget.thumb 0 "a.pdf") (120, 0) =
      some (normal [Widget.thumb 0 "a.pdf"]) :=
  ⟨by decide,
    C6_drop_on_placeholder_rejected [Widget.thumb 0 "a.pdf"] (Widget.thumb 0 "a.pdf")
      (120, 0) (by decide)⟩

/-- C2 (amended): the re-flow invariant — placeholder at the linear slot equal
to the real-item count, real items contiguous from slot 0, every item at cell
`divmod(index, 3)` — holds after `add_pdf` (from any layout state whose
widgets are distinct objects) and after every drop that returns, because both
paths end in `update_grid`; `delete_self` and `clear_all_pdfs` do not re-flow,
so the claim fails for them (see the counterexample). -/
theorem C2_reflow_invariant_after_add_and_drop :
    (∀ (L : Layout) (w : Widget), (realWidgets L).Nodup → w ≠ Widget.placeholder →
        w ∉ realWidgets L → grid_inv (add_pdf L w true)) ∧
    (∀ (ws : List Widget) (src : Widget) (pos : Nat × Nat) (L2 : Layout),
        Widget.placeholder ∉ ws → ws.Nodup →
        dropEvent (normal ws) src pos = some L2 → grid_inv L2) := by
  constructor
  · intro L w hnd hw hmem
    have h1 : realWidgets (addWidget L w ((L.length - 1) / 3) ((L.length - 1) % 3)) =
        realWidgets L ++ [w] := by
      rw [realWidgets_addWidget _ hw, removeW_of_not_mem hmem]
    have hnp2 : Widget.placeholder ∉ realWidgets L ++ [w] := by
      intro hm
      rcases List.mem_append.mp hm with hm | hm
      · exact placeholder_not_mem_realWidgets L hm
      · exact hw (List.mem_singleton.mp hm).symm
    show grid_inv (update_grid (addWidget L w ((L.length - 1) / 3) ((L.length - 1) % 3)))
    rw [update_grid_eq_normal (by rw [h1]; exact nodup_append_singleton hnd hmem), h1]
    exact grid_inv_normal hnp2
  · intro ws src pos L2 hnp hnd hdrop
    simp only [dropEvent] at hdrop
    by_cases hcp : can_place (normal ws) (get_grid_position pos) = true
    · rw [if_pos hcp] at hdrop
      cases hsw : swap_widgets (normal ws) src
          ((get_grid_position pos).1 * 3 + (get_grid_position pos).2) with
      | none =>
        rw [hsw] at hdrop
        exact absurd hdrop (by simp)
      | some L3 =>
        rw [hsw] at hdrop
        have hL2 : update_grid L3 = L2 := Option.some_inj.mp hdrop
        obtain ⟨si, hfind, ht, hL3⟩ := swap_widgets_eq_some hsw
        rw [realWidgets_normal hnp] at hfind ht hL3
        obtain ⟨-, hug⟩ := swap_widgets_normal hnp hnd hfind ht
        rw [← hL2, hL3, hug]
        apply grid_inv_normal
        obtain ⟨hsi, -⟩ := py_index_eq_some hfind
        exact fun hm => hnp (mem_of_swap2_mem hsi ht hm)
    · rw [if_neg hcp] at hdrop
      rw [← Option.some_inj.mp hdrop]
      exact grid_inv_normal hnp

theorem C2_reflow_invariant_witness :
    (realWidgets initial_grid).Nodup ∧
    grid_inv (add_pdf initial_grid (Widget.thumb 0 "a.pdf") true) :=
  ⟨by decide,
    C2_reflow_invariant_after_add_and_drop.1 initial_grid (Widget.thumb 0 "a.pdf")
      (by decide) (by decide) (by decide)⟩

/-- C2 counterexample: `delete_self` is also a public grid operation
(removeItem), but it performs no re-flow: removing the only item of a
one-item grid leaves the placeholder at its old cell (0, 1), i.e. at linear
slot 1, while the real-item count is 0 — the invariant the claim states for
"every public grid operation" fails right after removal. -/
theorem C2_remove_breaks_invariant :
    delete_self (normal [Widget.thumb 0 "a.pdf"]) (Widget.thumb 0 "a.pdf") =
      [⟨Widget.placeholder, 0, 1⟩] ∧
    (⟨Widget.placeholder, 0, 1⟩ : Cell).row * 3 + (⟨Widget.placeholder, 0, 1⟩ : Cell).col ≠
      (realWidgets [(⟨Widget.placeholder, 0, 1⟩ : Cell)]).length ∧
    ¬ grid_inv [(⟨Widget.placeholder, 0, 1⟩ : Cell)] := by
  refine ⟨by decide, by decide, ?_⟩
  intro hinv
  have h := (hinv.2 0 (by decide)).2.1
  exact absurd h (by decide)

/-- C3 (amended): clicking an item's delete affordance detaches exactly that
item and preserves the remaining items' relative order (the item sequence
becomes `ws.eraseIdx i`), but no re-flow happens: every remaining item keeps
the grid cell it already had (the gap stays open) and the placeholder keeps
its old cell `divmod(ws.length, 3)` instead of moving to the new end slot;
positions are only recomputed by the next operation that calls
`update_grid`. -/
theorem C3_remove_detaches_without_reflow (ws : List Widget) (i : Nat)
    (h : i < ws.length) (hnp : Widget.placeholder ∉ ws) (hnd : ws.Nodup) :
    delete_self (normal ws) (ws.get ⟨i, h⟩) =
      (cells_from 0 ws).eraseIdx i ++
        [⟨Widget.placeholder, ws.length / 3, ws.length % 3⟩] ∧
    realWidgets (delete_self (normal ws) (ws.get ⟨i, h⟩)) = ws.eraseIdx i := by
  refine ⟨delete_self_normal hnp hnd i h, ?_⟩
  rw [delete_self, realWidgets_removeWidgetL, realWidgets_normal hnp,
    removeW_get_eraseIdx hnd i h]

theorem C3_remove_detaches_without_reflow_witness :
    delete_self (normal [Widget.thumb 0 "a.pdf", Widget.thumb 1 "b.pdf"])
        (Widget.thumb 0 "a.pdf") =
      [⟨Widget.thumb 1 "b.pdf", 0, 1⟩, ⟨Widget.placeholder, 0, 2⟩] ∧
    realWidgets (delete_self (normal [Widget.thumb 0 "a.pdf", Widget.thumb 1 "b.pdf"])
        (Widget.thumb 0 "a.pdf")) = [Widget.thumb 1 "b.pdf"] :=
  C3_remove_detaches_without_reflow [Widget.thumb 0 "a.pdf", Widget.thumb 1 "b.pdf"] 0
    (by decide) (by decide) (by decide)

/-- C3 counterexample: the claim promises a re-flow on removal (the remaining
items close the gap, the placeholder moves to the new end slot).  Removing the
only item of a one-item grid should then leave the placeholder at slot 0,
cell (0, 0); the code leaves it at its old cell (0, 1). -/
theorem C3_no_reflow_counterexample :
    delete_self (normal [Widget.thumb 0 "a.pdf"]) (Widget.thumb 0 "a.pdf") =
      [⟨Widget.placeholder, 0, 1⟩] ∧
    delete_self (normal [Widget.thumb 0 "a.pdf"]) (Widget.thumb 0 "a.pdf") ≠
      [⟨Widget.placeholder, 0, 0⟩] := by
  decide

/-- C4 (amended): `clear_all_pdfs` removes every real item, leaving the grid
with exactly the placeholder — but it performs no re-flow, so the placeholder
keeps the cell `divmod(ws.length, 3)` it had before the clear (its old slot
equals the previous real-item count) rather than moving to slot 0; it reaches
slot 0 only through the next operation that calls `update_grid`. -/
theorem C4_clear_all_keeps_placeholder_cell (ws : List Widget)
    (hnp : Widget.placeholder ∉ ws) :
    clear_all_pdfs (normal ws) =
      [⟨Widget.placeholder, ws.length / 3, ws.length % 3⟩] :=
  clear_all_normal hnp

theorem C4_clear_all_keeps_placeholder_cell_witness :
    Widget.placeholder ∉ [Widget.thumb 0 "a.pdf"] ∧
    clear_all_pdfs (normal [Widget.thumb 0 "a.pdf"]) = [⟨Widget.placeholder, 0, 1⟩] :=
  ⟨by decide, C4_clear_all_keeps_placeholder_cell [Widget.thumb 0 "a.pdf"] (by decide)⟩

/-- C4 counterexample: after clearing a one-item grid the placeholder's item
still carries cell (0, 1), not the claimed slot 0 = cell (0, 0). -/
theorem C4_placeholder_not_at_slot_zero :
    clear_all_pdfs (normal [Widget.thumb 0 "a.pdf"]) = [⟨Widget.placeholder, 0, 1⟩] ∧
    clear_all_pdfs (normal [Widget.thumb 0 "a.pdf"]) ≠ [⟨Widget.placeholder, 0, 0⟩] := by
  decide

/-- C5: a run of `add_pdf` calls starting from the freshly initialized grid,
one call per path in list order, each rasterization succeeding, leaves the
grid so that `get_pdf_paths` returns exactly those source paths in the order
the calls were made (the placeholder contributes nothing). -/
theorem C5_paths_in_add_order (paths : List String) :
    get_pdf_paths (add_all initial_grid 0 paths) = paths := by
  have h0 : initial_grid = normal [] := rfl
  rw [h0, add_all_normal paths [] 0 (by simp) List.nodup_nil
      (by intro i p hm; simp at hm),
    List.nil_append, get_pdf_paths_normal, pathsOfW_thumbs_from]

/-- C7 (amended): one `merge_pdfs` call appends each source in list order onto
the accumulator, writes the accumulated sequence to the destination and
releases (closes) the accumulator — so a call on the fresh accumulator writes
exactly the given files.  But the accumulator is created once, in
`PDFMergerApp.__init__`, and `merge_pdfs` always uses that same instance:
after any successful call it is left released and non-empty, so only the
first merge of the application's lifetime operates on a fresh (empty,
unreleased) accumulator; the claim's "each call" is wrong (see the
counterexample). -/
theorem C7_accumulator_lifecycle :
    (∀ (files : List String) (out : String),
        logic_merge_pdfs newPdfMerger files out =
          ⟨⟨files, true⟩, true, some (out, files)⟩) ∧
    initialApp.merger = newPdfMerger ∧
    (∀ st : AppState, get_pdf_paths st.grid ≠ [] → st.output_filename ≠ "" →
        (app_merge_pdfs st).1.merger.closed = true ∧
        (app_merge_pdfs st).1.merger.appended =
          st.merger.appended ++ get_pdf_paths st.grid) := by
  refine ⟨?_, rfl, ?_⟩
  · intro files out
    simp [logic_merge_pdfs, newPdfMerger]
  · intro st hfiles hname
    simp only [app_merge_pdfs, if_neg hfiles, if_neg hname]
    exact ⟨rfl, rfl⟩

theorem C7_accumulator_lifecycle_witness :
    get_pdf_paths (normal [Widget.thumb 0 "a.pdf"]) ≠ [] ∧
    (app_merge_pdfs
        ⟨normal [Widget.thumb 0 "a.pdf"], newPdfMerger, "out.pdf"⟩).1.merger.closed = true ∧
    (app_merge_pdfs
        ⟨normal [Widget.thumb 0 "a.pdf"], newPdfMerger, "out.pdf"⟩).1.merger.appended =
      newPdfMerger.appended ++ get_pdf_paths (normal [Widget.thumb 0 "a.pdf"]) :=
  ⟨by decide,
    (C7_accumulator_lifecycle.2.2 ⟨normal [Widget.thumb 0 "a.pdf"], newPdfMerger, "out.pdf"⟩
      (by decide) (by decide)).1,
    (C7_accumulator_lifecycle.2.2 ⟨normal [Widget.thumb 0 "a.pdf"], newPdfMerger, "out.pdf"⟩
      (by decide) (by decide)).2⟩

/-- C7 counterexample: after the first (successful) merge of the
application's lifetime, the single accumulator created in `__init__` is
released and still holds the appended sources; the next `merge_pdfs` call
operates on exactly this accumulator, which is not fresh — refuting the
claim that every call operates on a fresh (empty, unreleased) accumulator. -/
theorem C7_accumulator_reused :
    (app_merge_pdfs
        ⟨normal [Widget.thumb 0 "a.pdf"], newPdfMerger, "out.pdf"⟩).1.merger =
      ⟨["a.pdf"], true⟩ ∧
    (⟨["a.pdf"], true⟩ : MergerState) ≠ newPdfMerger := by
  decide

/-- C8: `generate_output_filename` returns the first candidate of the
sequence `Merged_Output.pdf`, `Merged_Output_001.pdf`, `Merged_Output_002.pdf`,
… (counter zero-padded to 3 digits) that does not exist on disk; in
particular, when exactly `Merged_Output.pdf` and `Merged_Output_001.pdf`
exist, it returns `Merged_Output_002.pdf`. -/
theorem C8_autoname_first_free :
    (∀ (ex : String → Bool) (fuel : Nat) (s : String),
        generate_output_filename ex fuel = some s →
        ∃ m, s = outName m ∧ ex (outName m) = false ∧
          ∀ t, t < m → ex (outName t) = true) ∧
    generate_output_filename
        (fun s => s == "Merged_Output.pdf" || s == "Merged_Output_001.pdf") 3 =
      some "Merged_Output_002.pdf" := by
  constructor
  · intro ex fuel s h
    have h0 : gen_loop ex fuel (outName 0) 1 = some s := h
    obtain ⟨m, -, hs, hfree, hall⟩ := gen_loop_first_free ex fuel 0 s h0
    exact ⟨m, hs, hfree, fun t ht => hall t (Nat.zero_le t) ht⟩
  · rfl

theorem C8_autoname_first_free_witness :
    generate_output_filename
        (fun s => s == "Merged_Output.pdf" || s == "Merged_Output_001.pdf") 3 =
      some "Merged_Output_002.pdf" ∧
    ∃ m, "Merged_Output_002.pdf" = outName m ∧
      (fun s => s == "Merged_Output.pdf" || s == "Merged_Output_001.pdf")
          (outName m) = false ∧
      ∀ t, t < m →
        (fun s => s == "Merged_Output.pdf" || s == "Merged_Output_001.pdf")
          (outName t) = true :=
  ⟨rfl, C8_autoname_first_free.1
    (fun s => s == "Merged_Output.pdf" || s == "Merged_Output_001.pdf") 3
    "Merged_Output_002.pdf" rfl⟩

/-- C9: pressing Merge with no PDFs selected shows the no-files warning and
returns, and with files but an empty output name shows the no-name warning
and returns; in both cases the returned state is the input state unchanged
(same grid, same accumulator) and the effect is the warning dialog — the
merge engine is never invoked and nothing is written. -/
theorem C9_input_validation_aborts (st : AppState) :
    (get_pdf_paths st.grid = [] → app_merge_pdfs st = (st, MergeEffect.warnNoFiles)) ∧
    (get_pdf_paths st.grid ≠ [] → st.output_filename = "" →
      app_merge_pdfs st = (st, MergeEffect.warnNoName)) := by
  constructor
  · intro h
    simp only [app_merge_pdfs, if_pos h]
  · intro h1 h2
    simp only [app_merge_pdfs, if_neg h1, if_pos h2]

theorem C9_input_validation_aborts_witness :
    get_pdf_paths initialApp.grid = [] ∧
    app_merge_pdfs initialApp = (initialApp, MergeEffect.warnNoFiles) :=
  ⟨by decide, (C9_input_validation_aborts initialApp).1 (by decide)⟩

/-- C10 (refuted; the code has the bug the claim rules out): with one real
item the placeholder sits at cell (0, 1), and a drop at pixel (250, 50) maps
to cell (0, 2), which `can_place` accepts because it only rejects the
placeholder's own cell; the computed `target_index` is 2 while the real-item
list has length 1, so `items[2]` in `swap_widgets` raises an uncaught
`IndexError` (modelled as `none`). -/
theorem C10_swap_index_out_of_range :
    get_grid_position (250, 50) = (0, 2) ∧
    can_place (normal [Widget.thumb 0 "a.pdf"]) (0, 2) = true ∧
    (realWidgets (normal [Widget.thumb 0 "a.pdf"])).length = 1 ∧
    swap_widgets (normal [Widget.thumb 0 "a.pdf"]) (Widget.thumb 0 "a.pdf") 2 = none ∧
    dropEvent (normal [Widget.thumb 0 "a.pdf"]) (Widget.thumb 0 "a.pdf") (250, 50) =
      none := by
  decide
